import Mathlib

/-!
Shallow embedding of the jesseX video CMS (`app.py`): the video data
model, the file-intake helpers (`allowed_file`, werkzeug's
`secure_filename`, the timestamped storage-name assignment), the three
mutating admin request handlers (`upload_video`, `delete_video`,
`toggle_featured`) and the listing queries used by the home, highlights
and admin views.

Conventions of the embedding:
* `AppState.videos` is the `videos` table in rowid (insertion) order;
  `AppState.files` is the set of names present under the storage root
  (`static/uploads`), as a duplicate-free list; `AppState.nextId` is the
  next AUTOINCREMENT id.
* SQL `ORDER BY upload_date DESC` is embedded as a stable sort of the
  rows (taken in table-scan order) by descending `upload_date`; the SQL
  names no tie-break, and a full-table scan feeds rows to the sorter in
  rowid order.
* `upload_date` timestamps are embedded as `Nat` via an
  order-preserving encoding of the `YYYY-MM-DD HH:MM:SS` text SQLite
  stores for `CURRENT_TIMESTAMP`.
* The outcome of `file.save` is an explicit boolean parameter of the
  upload handler (`saveOk`); when it is false the handler's exception
  propagates (`Response.internalError`) exactly as in Flask, and no
  file appears under the storage root.
-/

namespace JesseX

/-- The `ALLOWED_EXTENSIONS` set of `app.py` (video container extensions). -/
def ALLOWED_EXTENSIONS : List String := ["mp4", "avi", "mov", "wmv", "flv", "webm"]

/-- Model of Python's `str.lower()` on the character list of a string. -/
def lowerChars (cs : List Char) : List Char := cs.map Char.toLower

/-- The characters after the last `'.'`, i.e. `filename.rsplit('.', 1)[1]`
when a dot is present (and the whole string when none is). -/
def afterLastDot (cs : List Char) : List Char :=
  (cs.reverse.takeWhile (fun c => !(c == '.'))).reverse

/-- Embedding of `allowed_file` from `app.py`:
`'.' in filename and filename.rsplit('.', 1)[1].lower() in ALLOWED_EXTENSIONS`. -/
def allowed_file (filename : String) : Bool :=
  filename.data.contains '.' &&
    ALLOWED_EXTENSIONS.contains (String.mk (lowerChars (afterLastDot filename.data)))

/-- Whitespace characters for Python's `str.split()` with no argument. -/
def isSpaceChar (c : Char) : Bool :=
  c == ' ' || c == '\t' || c == '\n' || c == '\r' || c == '\x0b' || c == '\x0c'

/-- Characters kept by werkzeug's filename strip pattern `[^A-Za-z0-9_.-]`. -/
def isKeptChar (c : Char) : Bool :=
  (decide ('A' ≤ c) && decide (c ≤ 'Z')) || (decide ('a' ≤ c) && decide (c ≤ 'z')) ||
    (decide ('0' ≤ c) && decide (c ≤ '9')) || c == '_' || c == '.' || c == '-'

/-- Path separators (`os.sep`, `os.altsep`) are replaced by spaces. -/
def sepToSpace (c : Char) : Char := if c == '/' || c == '\\' then ' ' else c

/-- Characters stripped from both ends by `.strip("._")`. -/
def isStripChar (c : Char) : Bool := c == '.' || c == '_'

/-- Collapse whitespace runs into single underscores, dropping a trailing
run; together with a leading `dropWhile` this is `"_".join(s.split())`.
The `pending` flag records that a whitespace run is open. -/
def joinWordsAux (pending : Bool) : List Char → List Char
  | [] => []
  | c :: cs =>
    if isSpaceChar c then joinWordsAux true cs
    else if pending then '_' :: c :: joinWordsAux false cs
    else c :: joinWordsAux false cs

/-- Python's `"_".join(s.split())` on character lists. -/
def joinWords (cs : List Char) : List Char :=
  joinWordsAux false (cs.dropWhile isSpaceChar)

/-- Drop the characters of `.strip("._")` from both ends. -/
def stripEnds (cs : List Char) : List Char :=
  ((cs.dropWhile isStripChar).reverse.dropWhile isStripChar).reverse

/-- ASCII codepoints survive `filename.encode("ascii", "ignore")`. -/
def isAsciiChar (c : Char) : Bool := decide (c.toNat < 128)

/-- Embedding of `werkzeug.utils.secure_filename` as called by
`upload_video` (POSIX host): drop non-ASCII characters, replace path
separators by spaces, collapse whitespace with `"_".join(s.split())`,
delete every character outside `[A-Za-z0-9_.-]`, and strip `"._"` from
both ends.  The library's NFKD normalization step only rewrites
non-ASCII input, which this ASCII model drops instead. -/
def secure_filename (s : String) : String :=
  String.mk (stripEnds ((joinWords ((s.data.filter isAsciiChar).map sepToSpace)).filter isKeptChar))

/-- Wall-clock second at which a request runs (`datetime.now()`). -/
structure Timestamp where
  year : Nat
  month : Nat
  day : Nat
  hour : Nat
  minute : Nat
  second : Nat
deriving DecidableEq, Repr

/-- A calendar-plausible timestamp with a four-digit year. -/
def Timestamp.Valid (t : Timestamp) : Prop :=
  t.year < 10000 ∧ 1 ≤ t.month ∧ t.month ≤ 12 ∧ 1 ≤ t.day ∧ t.day ≤ 31 ∧
    t.hour < 24 ∧ t.minute < 60 ∧ t.second < 60

instance (t : Timestamp) : Decidable t.Valid := by
  unfold Timestamp.Valid; infer_instance

/-- Two decimal digits (zero-padded), e.g. `strftime('%M')`. -/
def pad2 (n : Nat) : List Char := [Nat.digitChar (n / 10 % 10), Nat.digitChar (n % 10)]

/-- Four decimal digits (zero-padded), e.g. `strftime('%Y')` for four-digit years. -/
def pad4 (n : Nat) : List Char :=
  [Nat.digitChar (n / 1000 % 10), Nat.digitChar (n / 100 % 10),
    Nat.digitChar (n / 10 % 10), Nat.digitChar (n % 10)]

/-- Rendering of the strftime token %Y%m%d_%H%M%S used by the upload handler. -/
def formatTS (t : Timestamp) : List Char :=
  pad4 t.year ++ pad2 t.month ++ pad2 t.day ++
    '_' :: (pad2 t.hour ++ pad2 t.minute ++ pad2 t.second)

/-- Storage-name assignment of `upload_video`:
the f-string that puts the strftime token %Y%m%d_%H%M%S and an underscore in
front of the sanitized original name. -/
def assignStorageName (t : Timestamp) (orig : String) : String :=
  String.mk (formatTS t) ++ "_" ++ secure_filename orig

/-- Order-preserving `Nat` encoding of a timestamp, standing for the
`YYYY-MM-DD HH:MM:SS` text SQLite stores for `CURRENT_TIMESTAMP`. -/
def timeCode (t : Timestamp) : Nat :=
  ((((t.year * 100 + t.month) * 100 + t.day) * 100 + t.hour) * 100 + t.minute) * 100 + t.second

/-- A row of the `videos` table. -/
structure Video where
  id : Nat
  title : String
  description : String
  filename : String
  upload_date : Nat
  featured : Bool
deriving DecidableEq, Repr

/-- The persistent state the handlers touch: the `videos` table in rowid
order, the file names under the storage root, and the next id. -/
structure AppState where
  videos : List Video
  files : List String
  nextId : Nat
deriving DecidableEq, Repr

/-- What a mutating handler returns to the client: a redirect to the
login page, a redirect to the dashboard carrying an optional flash
`(message, category)`, or a propagated exception (HTTP 500). -/
inductive Response where
  | redirectLogin : Response
  | redirectDashboard : Option (String × String) → Response
  | internalError : Response
deriving DecidableEq, Repr

/-- The fields of an upload request that reach the handler:
`'video' in request.files`, `file.filename`, `request.form['title']`,
`request.form.get('description', '')`, `'featured' in request.form`. -/
structure UploadRequest where
  hasFile : Bool
  origFilename : String
  title : String
  description : String
  featured : Bool
deriving DecidableEq, Repr

/-- Embedding of the `upload_video` handler (`app.py`).  `auth` is
`session.get('admin_logged_in')`, `now` the wall clock at
`datetime.now()`, `saveOk` the outcome of `file.save` (false means the
write raised, so the exception propagates and no insert runs). -/
def upload_video (auth saveOk : Bool) (now : Timestamp) (req : UploadRequest)
    (st : AppState) : Response × AppState :=
  if !auth then (Response.redirectLogin, st)
  else if !req.hasFile then (Response.redirectDashboard (some ("No file selected!", "error")), st)
  else if req.origFilename == "" then
    (Response.redirectDashboard (some ("No file selected!", "error")), st)
  else if allowed_file req.origFilename then
    let storage := assignStorageName now req.origFilename
    if saveOk then
      let newFiles := if storage ∈ st.files then st.files else st.files ++ [storage]
      let record : Video :=
        { id := st.nextId, title := req.title, description := req.description,
          filename := storage, upload_date := timeCode now, featured := req.featured }
      (Response.redirectDashboard (some ("Video uploaded successfully!", "success")),
        { videos := st.videos ++ [record], files := newFiles, nextId := st.nextId + 1 })
    else (Response.internalError, st)
  else
    (Response.redirectDashboard (some ("Invalid file type! Please upload a video file.", "error")),
      st)

/-- Embedding of the `delete_video` handler (`app.py`): look the row up
(`fetchone` = first match in table order), remove the backing file only
if it exists (`os.path.exists` guard), then delete the row. -/
def delete_video (auth : Bool) (vid : Nat) (st : AppState) : Response × AppState :=
  if !auth then (Response.redirectLogin, st)
  else
    match st.videos.find? (fun v => v.id == vid) with
    | some v =>
      let newFiles := if v.filename ∈ st.files then st.files.erase v.filename else st.files
      (Response.redirectDashboard (some ("Video deleted successfully!", "success")),
        { st with videos := st.videos.filter (fun w => !(w.id == vid)), files := newFiles })
    | none => (Response.redirectDashboard none, st)

/-- Embedding of the `toggle_featured` handler (`app.py`): fetch the
row, negate its flag, and `UPDATE videos SET featured = ? WHERE id = ?`. -/
def toggle_featured (auth : Bool) (vid : Nat) (st : AppState) : Response × AppState :=
  if !auth then (Response.redirectLogin, st)
  else
    match st.videos.find? (fun v => v.id == vid) with
    | some v =>
      let nf := !v.featured
      (Response.redirectDashboard (some ("Video featured status updated!", "success")),
        { st with
            videos := st.videos.map (fun w => if w.id == vid then { w with featured := nf } else w) })
    | none => (Response.redirectDashboard none, st)

/-- Stable descending insertion by `upload_date`: the new row goes after
every already-placed row whose date is at least as large. -/
def insertByDate (v : Video) : List Video → List Video
  | [] => [v]
  | w :: ws => if w.upload_date < v.upload_date then v :: w :: ws else w :: insertByDate v ws

/-- Embedding of SQL `ORDER BY upload_date DESC`: a stable sort of the
rows taken in table-scan (rowid) order.  The SQL names no tie-break. -/
def orderByDateDesc (rows : List Video) : List Video :=
  rows.foldl (fun acc v => insertByDate v acc) []

/-- Query SELECT * FROM videos WHERE featured = 1 ORDER BY upload_date DESC LIMIT n. -/
def listFeatured (st : AppState) (limit : Nat) : List Video :=
  (orderByDateDesc (st.videos.filter (fun v => v.featured))).take limit

/-- Query SELECT * FROM videos WHERE featured = 1 ORDER BY upload_date DESC (no limit). -/
def listFeaturedAll (st : AppState) : List Video :=
  orderByDateDesc (st.videos.filter (fun v => v.featured))

/-- Query SELECT * FROM videos WHERE featured = 0 ORDER BY upload_date DESC. -/
def listNonFeatured (st : AppState) : List Video :=
  orderByDateDesc (st.videos.filter (fun v => !v.featured))

/-- Query SELECT * FROM videos ORDER BY upload_date DESC LIMIT n. -/
def listRecent (st : AppState) (limit : Nat) : List Video :=
  (orderByDateDesc st.videos).take limit

/-- Query SELECT * FROM videos ORDER BY upload_date DESC (the admin dashboard). -/
def listAll (st : AppState) : List Video :=
  orderByDateDesc st.videos

/-- The two row sequences of the home view: top 3 featured, top 6 recent. -/
def home_view (st : AppState) : List Video × List Video :=
  (listFeatured st 3, listRecent st 6)

/-- The two row sequences of the highlights view: all featured, all non-featured. -/
def highlights_view (st : AppState) : List Video × List Video :=
  (listFeaturedAll st, listNonFeatured st)

/-- The row sequence of the admin dashboard: all rows, newest first. -/
def admin_view (st : AppState) : List Video :=
  listAll st

/-- Sorted most-recent-first: along the list, upload dates never increase. -/
def SortedByDateDesc (l : List Video) : Prop :=
  l.Pairwise (fun a b => b.upload_date ≤ a.upload_date)

/-- A storage-relative name that contains no path separator and is not a
dot segment resolves, when joined under the storage root, to a strict
descendant of the root: it cannot escape it. -/
def resolvesInsideRoot (name : String) : Prop :=
  name.data ≠ [] ∧ name ≠ "." ∧ name ≠ ".." ∧ '/' ∉ name.data ∧ '\\' ∉ name.data

/-! Helper lemmas about the stable descending sort embedding `ORDER BY
upload_date DESC`. -/

theorem insertByDate_perm (v : Video) (l : List Video) :
    (insertByDate v l).Perm (v :: l) := by
  induction l with
  | nil => exact List.Perm.refl _
  | cons w ws ih =>
    unfold insertByDate
    by_cases h : w.upload_date < v.upload_date
    · simp [h]
    · simp only [h, if_false]
      exact (ih.cons w).trans (List.Perm.swap v w ws)

theorem mem_insertByDate {x v : Video} {l : List Video} :
    x ∈ insertByDate v l ↔ x = v ∨ x ∈ l := by
  rw [(insertByDate_perm v l).mem_iff, List.mem_cons]

theorem sorted_insertByDate (v : Video) (l : List Video) (h : SortedByDateDesc l) :
    SortedByDateDesc (insertByDate v l) := by
  induction l with
  | nil => simp [insertByDate, SortedByDateDesc]
  | cons w ws ih =>
    unfold insertByDate
    rcases List.pairwise_cons.mp h with ⟨hw, hws⟩
    by_cases hlt : w.upload_date < v.upload_date
    · simp only [hlt, if_true]
      refine List.pairwise_cons.mpr ⟨?_, h⟩
      intro x hx
      rcases List.mem_cons.mp hx with rfl | hx
      · exact Nat.le_of_lt hlt
      · exact Nat.le_trans (hw x hx) (Nat.le_of_lt hlt)
    · simp only [hlt, if_false]
      refine List.pairwise_cons.mpr ⟨?_, ih hws⟩
      intro x hx
      rcases mem_insertByDate.mp hx with rfl | hx
      · exact Nat.le_of_not_lt hlt
      · exact hw x hx

theorem sorted_foldl_insert (rows : List Video) :
    ∀ acc, SortedByDateDesc acc →
      SortedByDateDesc (rows.foldl (fun a v => insertByDate v a) acc) := by
  induction rows with
  | nil => intro acc h; exact h
  | cons r rs ih => intro acc h; exact ih _ (sorted_insertByDate r acc h)

theorem sorted_orderByDateDesc (rows : List Video) :
    SortedByDateDesc (orderByDateDesc rows) :=
  sorted_foldl_insert rows [] (List.Pairwise.nil)

theorem perm_foldl_insert (rows : List Video) :
    ∀ acc, (rows.foldl (fun a v => insertByDate v a) acc).Perm (acc ++ rows) := by
  induction rows with
  | nil => intro acc; simp
  | cons r rs ih =>
    intro acc
    refine (ih (insertByDate r acc)).trans ?_
    refine (List.Perm.append_right rs (insertByDate_perm r acc)).trans ?_
    exact List.perm_middle.symm

theorem orderByDateDesc_perm (rows : List Video) :
    (orderByDateDesc rows).Perm rows := by
  simpa using perm_foldl_insert rows []

theorem mem_orderByDateDesc {x : Video} {rows : List Video} :
    x ∈ orderByDateDesc rows ↔ x ∈ rows :=
  (orderByDateDesc_perm rows).mem_iff

theorem filter_eq_nil_of_lt {l : List Video} {d : Nat}
    (hd : ∀ x ∈ l, x.upload_date < d) :
    l.filter (fun w => w.upload_date == d) = [] := by
  rw [List.filter_eq_nil_iff]
  intro a ha
  simp only [beq_iff_eq]
  exact Nat.ne_of_lt (hd a ha)

theorem filter_insertByDate (v : Video) (l : List Video) (d : Nat)
    (hs : SortedByDateDesc l) :
    (insertByDate v l).filter (fun w => w.upload_date == d) =
      l.filter (fun w => w.upload_date == d) ++
        (if v.upload_date = d then [v] else []) := by
  induction l with
  | nil =>
    by_cases hv : v.upload_date = d <;>
      simp [insertByDate, List.filter_cons, hv]
  | cons w ws ih =>
    rcases List.pairwise_cons.mp hs with ⟨hw, hws⟩
    unfold insertByDate
    by_cases hlt : w.upload_date < v.upload_date
    · simp only [hlt, if_true]
      by_cases hv : v.upload_date = d
      · have hnil : (w :: ws).filter (fun w => w.upload_date == d) = [] := by
          refine filter_eq_nil_of_lt ?_
          intro x hx
          rcases List.mem_cons.mp hx with rfl | hx
          · omega
          · have := hw x hx; omega
        rw [List.filter_cons_of_pos (by simpa using hv), hnil, hv]
        simp
      · rw [List.filter_cons_of_neg (by simpa using hv)]
        simp [hv]
    · simp only [hlt, if_false]
      by_cases hwd : w.upload_date = d
      · rw [List.filter_cons_of_pos (by simpa using hwd),
          List.filter_cons_of_pos (by simpa using hwd), ih hws, List.cons_append]
      · rw [List.filter_cons_of_neg (by simpa using hwd),
          List.filter_cons_of_neg (by simpa using hwd), ih hws]

theorem filter_foldl_insert (rows : List Video) (d : Nat) :
    ∀ acc, SortedByDateDesc acc →
      (rows.foldl (fun a v => insertByDate v a) acc).filter (fun w => w.upload_date == d) =
        acc.filter (fun w => w.upload_date == d) ++
          rows.filter (fun w => w.upload_date == d) := by
  induction rows with
  | nil => intro acc _; simp
  | cons r rs ih =>
    intro acc hs
    rw [List.foldl_cons, ih _ (sorted_insertByDate r acc hs),
      filter_insertByDate r acc d hs]
    by_cases hr : r.upload_date = d
    · rw [List.filter_cons_of_pos (by simpa using hr)]
      simp [hr]
    · rw [List.filter_cons_of_neg (by simpa using hr)]
      simp [hr]

theorem orderByDateDesc_stable (rows : List Video) (d : Nat) :
    (orderByDateDesc rows).filter (fun w => w.upload_date == d) =
      rows.filter (fun w => w.upload_date == d) := by
  simpa using filter_foldl_insert rows d [] List.Pairwise.nil

/-! Claim theorems. -/

/-- C4: for every request to the upload, delete, or toggle-featured
endpoint in a session where the admin authenticated flag is not set, the
handler redirects to the login page and the state (video table and
storage root) is completely unchanged: no File Intake or Video Store
call is reached. -/
theorem c4_unauthenticated_requests_never_mutate (saveOk : Bool) (now : Timestamp)
    (req : UploadRequest) (st : AppState) (vid1 vid2 : Nat) :
    upload_video false saveOk now req st = (Response.redirectLogin, st) ∧
    delete_video false vid1 st = (Response.redirectLogin, st) ∧
    toggle_featured false vid2 st = (Response.redirectLogin, st) :=
  ⟨rfl, rfl, rfl⟩

/-- C5: in every upload request the file write happens (or fails) before
the metadata insert: if the write fails the handler is left with the
state untouched (no record committed), and in every case the final
state either is unchanged or has both the new record and a file the
record's `filename` refers to. -/
theorem c5_file_write_precedes_insert (auth saveOk : Bool) (now : Timestamp)
    (req : UploadRequest) (st : AppState) :
    (saveOk = false → (upload_video auth saveOk now req st).2 = st) ∧
    ((upload_video auth saveOk now req st).2 = st ∨
      ∃ r : Video,
        (upload_video auth saveOk now req st).2.videos = st.videos ++ [r] ∧
        r.filename ∈ (upload_video auth saveOk now req st).2.files) := by
  unfold upload_video
  cases auth with
  | false => simp
  | true =>
    cases hf : req.hasFile with
    | false => simp
    | true =>
      by_cases hn : req.origFilename == ""
      · simp [hn]
      · by_cases ha : allowed_file req.origFilename
        · cases saveOk with
          | false => simp [hn, ha]
          | true =>
            constructor
            · intro h; simp at h
            · refine Or.inr
                ⟨{ id := st.nextId, title := req.title, description := req.description,
                   filename := assignStorageName now req.origFilename,
                   upload_date := timeCode now, featured := req.featured }, ?_, ?_⟩
              · simp [hn, ha]
              · simp only [Bool.not_true, Bool.false_eq_true, if_false, hn, ha, if_true]
                by_cases hmem : assignStorageName now req.origFilename ∈ st.files
                · simp [hmem]
                · simp [hmem]
        · simp [hn, ha]

/-- Witness for C5: at a concrete valid request whose file write fails,
the state is untouched. -/
theorem c5_file_write_precedes_insert_witness :
    (upload_video true false ⟨2024, 1, 15, 10, 30, 0⟩
        ⟨true, "b.mp4", "t", "", false⟩ ⟨[], [], 1⟩).2 = ⟨[], [], 1⟩ :=
  (c5_file_write_precedes_insert true false ⟨2024, 1, 15, 10, 30, 0⟩
    ⟨true, "b.mp4", "t", "", false⟩ ⟨[], [], 1⟩).1 rfl

/-- C1 counterexample: an upload request whose title form field is the
empty string but whose file is valid does invoke the Video Store insert:
a record is created and the handler reports success, not a validation
error. -/
theorem c1_counterexample :
    ((upload_video true true ⟨2024, 1, 15, 10, 30, 0⟩
        ⟨true, "a.mp4", "", "", false⟩ ⟨[], [], 1⟩).2.videos.length = 1) ∧
    (upload_video true true ⟨2024, 1, 15, 10, 30, 0⟩
        ⟨true, "a.mp4", "", "", false⟩ ⟨[], [], 1⟩).1 =
      Response.redirectDashboard (some ("Video uploaded successfully!", "success")) := by
  exact ⟨rfl, rfl⟩

/-- C1 (amended): the upload handler performs no title validation at
all: for any request with a file present, a nonempty filename with an
allowed extension, and a successful file write, the insert is invoked
regardless of the title, so an empty-title request creates a record
whose title is the empty string. -/
theorem c1_amended_no_title_validation (now : Timestamp) (req : UploadRequest)
    (st : AppState) (ht : req.title = "") (hf : req.hasFile = true)
    (hn : req.origFilename ≠ "") (ha : allowed_file req.origFilename = true) :
    (upload_video true true now req st).2.videos =
      st.videos ++ [{ id := st.nextId, title := "", description := req.description,
                      filename := assignStorageName now req.origFilename,
                      upload_date := timeCode now, featured := req.featured }] := by
  unfold upload_video
  simp [hf, hn, ha, ht]

/-- C2 counterexample: a table with two rows carrying equal
`upload_date` timestamps is listed with the lower id first (table-scan
order), not by descending id as the claim states. -/
theorem c2_counterexample :
    listAll ⟨[⟨1, "a", "", "f1.mp4", 5, false⟩, ⟨2, "b", "", "f2.mp4", 5, false⟩], [], 3⟩ =
        [⟨1, "a", "", "f1.mp4", 5, false⟩, ⟨2, "b", "", "f2.mp4", 5, false⟩] ∧
    listAll ⟨[⟨1, "a", "", "f1.mp4", 5, false⟩, ⟨2, "b", "", "f2.mp4", 5, false⟩], [], 3⟩ ≠
        [⟨2, "b", "", "f2.mp4", 5, false⟩, ⟨1, "a", "", "f1.mp4", 5, false⟩] := by
  exact ⟨rfl, by decide⟩

/-- C2 (amended): every listing query orders rows by `upload_date`
descending only; the SQL names no id tie-break, and rows with equal
timestamps keep their table (insertion, i.e. ascending id) order: the
listing restricted to any one timestamp equals the table restricted to
that timestamp. -/
theorem c2_amended_date_order_with_scan_order_ties (st : AppState) (d : Nat) :
    SortedByDateDesc (admin_view st) ∧
    SortedByDateDesc (listFeaturedAll st) ∧
    SortedByDateDesc (listNonFeatured st) ∧
    SortedByDateDesc (home_view st).1 ∧
    SortedByDateDesc (home_view st).2 ∧
    (admin_view st).filter (fun w => w.upload_date == d) =
      st.videos.filter (fun w => w.upload_date == d) ∧
    (listFeaturedAll st).filter (fun w => w.upload_date == d) =
      (st.videos.filter (fun v => v.featured)).filter (fun w => w.upload_date == d) ∧
    (listNonFeatured st).filter (fun w => w.upload_date == d) =
      (st.videos.filter (fun v => !v.featured)).filter (fun w => w.upload_date == d) := by
  refine ⟨sorted_orderByDateDesc _, sorted_orderByDateDesc _, sorted_orderByDateDesc _,
    ?_, ?_, orderByDateDesc_stable _ _, orderByDateDesc_stable _ _,
    orderByDateDesc_stable _ _⟩
  · exact List.Pairwise.sublist (List.take_sublist _ _) (sorted_orderByDateDesc _)
  · exact List.Pairwise.sublist (List.take_sublist _ _) (sorted_orderByDateDesc _)

/-- C9: the featured listings return only rows with `featured = true`,
the non-featured listing only rows with `featured = false`, and every
such result sequence is ordered most-recent-first (upload dates never
increase along it). -/
theorem c9_featured_partition_and_order (st : AppState) (limit : Nat) :
    (listFeatured st limit).all (fun v => v.featured) = true ∧
    (listFeaturedAll st).all (fun v => v.featured) = true ∧
    (listNonFeatured st).all (fun v => !v.featured) = true ∧
    SortedByDateDesc (listFeatured st limit) ∧
    SortedByDateDesc (listFeaturedAll st) ∧
    SortedByDateDesc (listNonFeatured st) := by
  refine ⟨?_, ?_, ?_,
    List.Pairwise.sublist (List.take_sublist _ _) (sorted_orderByDateDesc _),
    sorted_orderByDateDesc _, sorted_orderByDateDesc _⟩
  · rw [List.all_eq_true]
    intro v hv
    have hv' : v ∈ orderByDateDesc (st.videos.filter (fun v => v.featured)) :=
      (List.take_sublist _ _).mem hv
    exact List.of_mem_filter (mem_orderByDateDesc.mp hv')
  · rw [List.all_eq_true]
    intro v hv
    exact List.of_mem_filter (mem_orderByDateDesc.mp hv)
  · rw [List.all_eq_true]
    intro v hv
    have hm : v ∈ st.videos.filter (fun v => !v.featured) :=
      mem_orderByDateDesc.mp hv
    simpa using List.of_mem_filter hm

/-- The scan of takeWhile runs through a block of satisfying characters
and stops exactly at the first failing one. -/
theorem takeWhile_append_cons {α : Type} {p : α → Bool} {l : List α}
    (hl : ∀ x ∈ l, p x = true) {a : α} (ha : p a = false) (r : List α) :
    (l ++ a :: r).takeWhile p = l := by
  induction l with
  | nil => simp [List.takeWhile_cons, ha]
  | cons x xs ih =>
    have hx := hl x (List.mem_cons_self x xs)
    simp [List.takeWhile_cons, hx, ih fun y hy => hl y (List.mem_cons_of_mem x hy)]

/-- The first character kept by dropWhile fails the predicate. -/
theorem dropWhile_head_false {α : Type} {p : α → Bool} :
    ∀ {l : List α} {x : α} {rest : List α}, l.dropWhile p = x :: rest → p x = false := by
  intro l
  induction l with
  | nil => intro x rest h; cases h
  | cons y ys ih =>
    intro x rest h
    rw [List.dropWhile_cons] at h
    by_cases hy : p y = true
    · rw [if_pos hy] at h; exact ih h
    · rw [if_neg hy] at h
      cases h
      exact Bool.not_eq_true _ ▸ (Bool.eq_false_iff.mpr fun hc => hy hc)

/-- Evaluating `afterLastDot` on a name split at its last dot. -/
theorem afterLastDot_append {a b : List Char} (hb : '.' ∉ b) :
    afterLastDot (a ++ '.' :: b) = b := by
  unfold afterLastDot
  rw [List.reverse_append, List.reverse_cons, List.append_assoc, List.singleton_append]
  rw [takeWhile_append_cons ?_ (by simp) a.reverse, List.reverse_reverse]
  intro x hx
  have : x ≠ '.' := fun hc => hb (hc ▸ List.mem_reverse.mp hx)
  simp [this]

/-- Any character list containing a dot splits at its last dot. -/
theorem exists_last_dot_split {cs : List Char} (h : '.' ∈ cs) :
    ∃ a b : List Char, cs = a ++ '.' :: b ∧ '.' ∉ b := by
  have h' : '.' ∈ cs.reverse := List.mem_reverse.mpr h
  have hsplit := List.takeWhile_append_dropWhile (fun c => !(c == '.')) cs.reverse
  cases hd : cs.reverse.dropWhile (fun c => !(c == '.')) with
  | nil =>
    exfalso
    rw [hd, List.append_nil] at hsplit
    have hmem : '.' ∈ cs.reverse.takeWhile (fun c => !(c == '.')) := by
      rw [hsplit]; exact h'
    have := List.mem_takeWhile_imp hmem
    simp at this
  | cons x rest =>
    have hx : x = '.' := by
      have := dropWhile_head_false hd
      simpa using this
    subst hx
    refine ⟨rest.reverse, (cs.reverse.takeWhile (fun c => !(c == '.'))).reverse, ?_, ?_⟩
    · conv_lhs => rw [← cs.reverse_reverse, ← hsplit, hd]
      simp [List.reverse_append]
    · intro hc
      have := List.mem_takeWhile_imp (List.mem_reverse.mp hc)
      simp at this

/-- C3: `allowed_file` accepts a name iff the name contains a dot and
the lowercased suffix after its last dot is one of the allow-listed
container extensions; names with no dot, or any other suffix, are
rejected. -/
theorem c3_allowed_file_iff (s : String) :
    allowed_file s = true ↔
      ∃ a b : List Char, s.data = a ++ '.' :: b ∧ '.' ∉ b ∧
        String.mk (lowerChars b) ∈ ALLOWED_EXTENSIONS := by
  unfold allowed_file
  rw [Bool.and_eq_true]
  constructor
  · rintro ⟨hdot, hext⟩
    have hdot' : '.' ∈ s.data := List.elem_iff.mp hdot
    obtain ⟨a, b, heq, hb⟩ := exists_last_dot_split hdot'
    have hsfx : afterLastDot s.data = b := by rw [heq]; exact afterLastDot_append hb
    rw [hsfx] at hext
    exact ⟨a, b, heq, hb, List.elem_iff.mp hext⟩
  · rintro ⟨a, b, heq, hb, hm⟩
    constructor
    · exact List.elem_iff.mpr (by rw [heq]; simp)
    · have hsfx : afterLastDot s.data = b := by rw [heq]; exact afterLastDot_append hb
      rw [hsfx]
      exact List.elem_iff.mpr hm

/-- Rows of a table whose id column is duplicate-free are determined by
their id (the `id INTEGER PRIMARY KEY` schema constraint). -/
theorem eq_of_mem_of_nodup_ids {l : List Video}
    (hnd : (l.map (fun w => w.id)).Nodup) {a b : Video}
    (ha : a ∈ l) (hb : b ∈ l) (h : a.id = b.id) : a = b := by
  induction l with
  | nil => cases ha
  | cons x xs ih =>
    rw [List.map_cons, List.nodup_cons] at hnd
    obtain ⟨hx, hxs⟩ := hnd
    rcases List.mem_cons.mp ha with rfl | ha' <;> rcases List.mem_cons.mp hb with rfl | hb'
    · rfl
    · rw [h] at hx
      exact absurd (List.mem_map_of_mem (fun w => w.id) hb') hx
    · rw [← h] at hx
      exact absurd (List.mem_map_of_mem (fun w => w.id) ha') hx
    · exact ih hxs ha' hb'

/-- C6: for an existing video id the handler attempts file removal first
and deletes the metadata row regardless of whether the backing file was
present (a missing file never blocks metadata cleanup, and deleting an
already-missing file leaves the storage root untouched and is not an
error); for a nonexistent id the metadata lookup reports not-found and
the state is entirely unchanged. -/
theorem c6_delete_file_then_row (vid : Nat) (st : AppState) :
    (∀ v, st.videos.find? (fun w => w.id == vid) = some v →
      (delete_video true vid st).2.videos = st.videos.filter (fun w => !(w.id == vid)) ∧
      (v.filename ∈ st.files →
        (delete_video true vid st).2.files = st.files.erase v.filename) ∧
      (v.filename ∉ st.files →
        (delete_video true vid st).2.files = st.files ∧
        (delete_video true vid st).1 =
          Response.redirectDashboard (some ("Video deleted successfully!", "success")))) ∧
    (st.videos.find? (fun w => w.id == vid) = none →
      delete_video true vid st = (Response.redirectDashboard none, st)) := by
  constructor
  · intro v hfind
    refine ⟨?_, ?_, ?_⟩
    · simp [delete_video, hfind]
    · intro hmem
      simp [delete_video, hfind, hmem]
    · intro hmem
      constructor <;> simp [delete_video, hfind, hmem]
  · intro hnone
    simp [delete_video, hnone]

/-- Witness for C6 at a concrete state holding one video whose file exists. -/
theorem c6_delete_file_then_row_witness :
    (delete_video true 5 ⟨[⟨5, "t", "", "f5.mp4", 9, false⟩], ["f5.mp4"], 6⟩).2.videos =
      [⟨5, "t", "", "f5.mp4", 9, false⟩].filter (fun w => !(w.id == 5)) ∧
    (delete_video true 5 ⟨[⟨5, "t", "", "f5.mp4", 9, false⟩], ["f5.mp4"], 6⟩).2.files =
      ["f5.mp4"].erase "f5.mp4" :=
  ⟨((c6_delete_file_then_row 5 ⟨[⟨5, "t", "", "f5.mp4", 9, false⟩], ["f5.mp4"], 6⟩).1
      ⟨5, "t", "", "f5.mp4", 9, false⟩ (by decide)).1,
    ((c6_delete_file_then_row 5 ⟨[⟨5, "t", "", "f5.mp4", 9, false⟩], ["f5.mp4"], 6⟩).1
      ⟨5, "t", "", "f5.mp4", 9, false⟩ (by decide)).2.1 (by decide)⟩

/-- C8: on a table with duplicate-free ids, toggling an existing id
rewrites the table by flipping exactly that row's `featured` flag and
leaving every other row, and every other field of the toggled row,
unchanged. -/
theorem c8_toggle_flips_exactly_one (vid : Nat) (st : AppState) (v : Video)
    (hfind : st.videos.find? (fun w => w.id == vid) = some v)
    (hnd : (st.videos.map (fun w => w.id)).Nodup) :
    (toggle_featured true vid st).2.videos =
      st.videos.map (fun w => if w.id = vid then { w with featured := !w.featured } else w) := by
  have hv : v ∈ st.videos := List.mem_of_find?_eq_some hfind
  have hvid : v.id = vid := by
    have := List.find?_some hfind
    simpa using this
  unfold toggle_featured
  simp only [Bool.not_true, Bool.false_eq_true, if_false, hfind]
  apply List.map_congr_left
  intro w hw
  by_cases h : w.id = vid
  · have hwv : w = v := eq_of_mem_of_nodup_ids hnd hw hv (by rw [h, hvid])
    subst hwv
    simp [h]
  · simp [h]

/-- Witness for C8 at a concrete two-row table. -/
theorem c8_toggle_flips_exactly_one_witness :
    (toggle_featured true 2
        ⟨[⟨1, "a", "", "f1.mp4", 5, true⟩, ⟨2, "b", "", "f2.mp4", 6, false⟩], [], 3⟩).2.videos =
      [⟨1, "a", "", "f1.mp4", 5, true⟩, ⟨2, "b", "", "f2.mp4", 6, false⟩].map
        (fun w => if w.id = 2 then { w with featured := !w.featured } else w) :=
  c8_toggle_flips_exactly_one 2
    ⟨[⟨1, "a", "", "f1.mp4", 5, true⟩, ⟨2, "b", "", "f2.mp4", 6, false⟩], [], 3⟩
    ⟨2, "b", "", "f2.mp4", 6, false⟩ (by decide) (by decide)

/-- Decimal digit characters are distinct. -/
theorem digitChar_inj_lt : ∀ a : Nat, a < 10 → ∀ b : Nat, b < 10 →
    Nat.digitChar a = Nat.digitChar b → a = b := by decide

/-- A zero-padded two-digit rendering determines the number below 100. -/
theorem pad2_inj {m n : Nat} (hm : m < 100) (hn : n < 100) (h : pad2 m = pad2 n) :
    m = n := by
  unfold pad2 at h
  simp only [List.cons.injEq, and_true] at h
  obtain ⟨h1, h2⟩ := h
  have e1 := digitChar_inj_lt _ (Nat.mod_lt _ (by norm_num)) _ (Nat.mod_lt _ (by norm_num)) h1
  have e2 := digitChar_inj_lt _ (Nat.mod_lt _ (by norm_num)) _ (Nat.mod_lt _ (by norm_num)) h2
  omega

/-- A zero-padded four-digit rendering determines the number below 10000. -/
theorem pad4_inj {m n : Nat} (hm : m < 10000) (hn : n < 10000) (h : pad4 m = pad4 n) :
    m = n := by
  unfold pad4 at h
  simp only [List.cons.injEq, and_true] at h
  obtain ⟨h1, h2, h3, h4⟩ := h
  have e1 := digitChar_inj_lt _ (Nat.mod_lt _ (by norm_num)) _ (Nat.mod_lt _ (by norm_num)) h1
  have e2 := digitChar_inj_lt _ (Nat.mod_lt _ (by norm_num)) _ (Nat.mod_lt _ (by norm_num)) h2
  have e3 := digitChar_inj_lt _ (Nat.mod_lt _ (by norm_num)) _ (Nat.mod_lt _ (by norm_num)) h3
  have e4 := digitChar_inj_lt _ (Nat.mod_lt _ (by norm_num)) _ (Nat.mod_lt _ (by norm_num)) h4
  omega

/-- The `%Y%m%d_%H%M%S` token determines the timestamp: two valid
timestamps with the same rendering are equal. -/
theorem formatTS_inj {t1 t2 : Timestamp} (h1 : t1.Valid) (h2 : t2.Valid)
    (h : formatTS t1 = formatTS t2) : t1 = t2 := by
  obtain ⟨y1, mo1, d1, hh1, mi1, sc1⟩ := t1
  obtain ⟨y2, mo2, d2, hh2, mi2, sc2⟩ := t2
  simp only [Timestamp.Valid] at h1 h2
  simp only [formatTS, List.append_assoc] at h
  obtain ⟨hy, h⟩ := List.append_inj h (by simp [pad4])
  obtain ⟨hmo, h⟩ := List.append_inj h (by simp [pad2])
  obtain ⟨hd, h⟩ := List.append_inj h (by simp [pad2])
  rw [List.cons.injEq] at h
  obtain ⟨-, h⟩ := h
  obtain ⟨hhh, h⟩ := List.append_inj h (by simp [pad2])
  obtain ⟨hmi, hsc⟩ := List.append_inj h (by simp [pad2])
  simp only [Timestamp.mk.injEq]
  refine ⟨pad4_inj (by omega) (by omega) hy, pad2_inj (by omega) (by omega) hmo,
    pad2_inj (by omega) (by omega) hd, pad2_inj (by omega) (by omega) hhh,
    pad2_inj (by omega) (by omega) hmi, pad2_inj (by omega) (by omega) hsc⟩

/-- C7: storage names carry a `YYYYMMDD_HHMMSS_` timestamp token in
front of the sanitized original name, so two uploads whose names are
assigned in different seconds get distinct storage names, even when the
sanitized original names coincide. -/
theorem c7_storage_names_distinct_across_seconds (t1 t2 : Timestamp) (n1 n2 : String)
    (h1 : t1.Valid) (h2 : t2.Valid) (hne : t1 ≠ t2) :
    assignStorageName t1 n1 ≠ assignStorageName t2 n2 := by
  intro h
  apply hne
  apply formatTS_inj h1 h2
  have hd : (assignStorageName t1 n1).data = (assignStorageName t2 n2).data := by rw [h]
  unfold assignStorageName at hd
  simp only [String.data_append, List.append_assoc] at hd
  exact (List.append_inj hd (by simp [formatTS, pad4, pad2])).1

/-- Witness for C7: the same file name uploaded one second apart gets
two different storage names. -/
theorem c7_storage_names_distinct_across_seconds_witness :
    assignStorageName ⟨2024, 1, 15, 10, 30, 0⟩ "clip.mp4" ≠
      assignStorageName ⟨2024, 1, 15, 10, 30, 1⟩ "clip.mp4" :=
  c7_storage_names_distinct_across_seconds _ _ _ _ (by decide) (by decide) (by decide)

/-- Characters of a two-digit token are decimal digits. -/
theorem mem_pad2 {c : Char} {n : Nat} (h : c ∈ pad2 n) :
    ∃ m, m < 10 ∧ c = Nat.digitChar m := by
  simp only [pad2, List.mem_cons, List.not_mem_nil, or_false] at h
  rcases h with h | h
  · exact ⟨n / 10 % 10, Nat.mod_lt _ (by norm_num), h⟩
  · exact ⟨n % 10, Nat.mod_lt _ (by norm_num), h⟩

/-- Characters of a four-digit token are decimal digits. -/
theorem mem_pad4 {c : Char} {n : Nat} (h : c ∈ pad4 n) :
    ∃ m, m < 10 ∧ c = Nat.digitChar m := by
  simp only [pad4, List.mem_cons, List.not_mem_nil, or_false] at h
  rcases h with h | h | h | h
  · exact ⟨n / 1000 % 10, Nat.mod_lt _ (by norm_num), h⟩
  · exact ⟨n / 100 % 10, Nat.mod_lt _ (by norm_num), h⟩
  · exact ⟨n / 10 % 10, Nat.mod_lt _ (by norm_num), h⟩
  · exact ⟨n % 10, Nat.mod_lt _ (by norm_num), h⟩

/-- Every character of the timestamp token is an underscore or a digit. -/
theorem mem_formatTS {t : Timestamp} {c : Char} (h : c ∈ formatTS t) :
    c = '_' ∨ ∃ m, m < 10 ∧ c = Nat.digitChar m := by
  unfold formatTS at h
  rcases List.mem_append.mp h with h | h
  · rcases List.mem_append.mp h with h | h
    · rcases List.mem_append.mp h with h | h
      · exact Or.inr (mem_pad4 h)
      · exact Or.inr (mem_pad2 h)
    · exact Or.inr (mem_pad2 h)
  · rcases List.mem_cons.mp h with h | h
    · exact Or.inl h
    · rcases List.mem_append.mp h with h | h
      · rcases List.mem_append.mp h with h | h
        · exact Or.inr (mem_pad2 h)
        · exact Or.inr (mem_pad2 h)
      · exact Or.inr (mem_pad2 h)

/-- Digit characters are not separators or dots. -/
theorem digitChar_ne_special : ∀ m : Nat, m < 10 →
    Nat.digitChar m ≠ '/' ∧ Nat.digitChar m ≠ '\\' ∧ Nat.digitChar m ≠ '.' := by decide

/-- Stripping both ends only removes characters. -/
theorem mem_stripEnds {c : Char} {l : List Char} (h : c ∈ stripEnds l) : c ∈ l := by
  unfold stripEnds at h
  rw [List.mem_reverse] at h
  have h1 := List.Sublist.mem h (List.dropWhile_sublist _)
  rw [List.mem_reverse] at h1
  exact List.Sublist.mem h1 (List.dropWhile_sublist _)

/-- Every character surviving `secure_filename` is in `[A-Za-z0-9_.-]`. -/
theorem secure_filename_chars {s : String} {c : Char}
    (h : c ∈ (secure_filename s).data) : isKeptChar c = true :=
  List.of_mem_filter (mem_stripEnds h)

/-- The character-list view of an assigned storage name. -/
theorem assignStorageName_data (t : Timestamp) (orig : String) :
    (assignStorageName t orig).data = formatTS t ++ '_' :: (secure_filename orig).data := by
  unfold assignStorageName
  rw [String.data_append, String.data_append, List.append_assoc]
  rfl

/-- C10: sanitization removes path separators and traversal segments
before the timestamp token is added (as the `"../../etc/passwd.mp4"`
scenario shows concretely), and the assigned storage name contains no
separator and is no dot segment, so it resolves only inside the storage
root. -/
theorem c10_storage_name_resolves_inside_root (t : Timestamp) (orig : String) :
    '/' ∉ (secure_filename orig).data ∧
    '\\' ∉ (secure_filename orig).data ∧
    resolvesInsideRoot (assignStorageName t orig) ∧
    secure_filename "../../etc/passwd.mp4" = "etc_passwd.mp4" := by
  have hslash : '/' ∉ (secure_filename orig).data := fun hc => by
    have := secure_filename_chars hc
    simp [isKeptChar] at this
  have hbslash : '\\' ∉ (secure_filename orig).data := fun hc => by
    have := secure_filename_chars hc
    simp [isKeptChar] at this
  have hdata := assignStorageName_data t orig
  have hlen : (assignStorageName t orig).data.length =
      16 + (secure_filename orig).data.length := by
    rw [hdata, List.length_append, List.length_cons]
    simp only [formatTS, pad4, pad2, List.length_append, List.length_cons, List.length_nil]
    omega
  have hnosep : ∀ c ∈ (assignStorageName t orig).data, c ≠ '/' ∧ c ≠ '\\' := by
    intro c hc
    rw [hdata] at hc
    rcases List.mem_append.mp hc with h | h
    · rcases mem_formatTS h with h' | ⟨m, hm, h'⟩
      · subst h'; exact ⟨by decide, by decide⟩
      · subst h'
        exact ⟨(digitChar_ne_special m hm).1, (digitChar_ne_special m hm).2.1⟩
    · rcases List.mem_cons.mp h with h' | h'
      · subst h'; exact ⟨by decide, by decide⟩
      · exact ⟨fun hc' => hslash (hc' ▸ h'), fun hc' => hbslash (hc' ▸ h')⟩
  refine ⟨hslash, hbslash, ⟨?_, ?_, ?_, ?_, ?_⟩, by rfl⟩
  · intro hc
    have hq : (assignStorageName t orig).data.length = 0 := by rw [hc]; rfl
    rw [hlen] at hq
    omega
  · intro hc
    have hq : (assignStorageName t orig).data.length = 1 := by rw [hc]; rfl
    rw [hlen] at hq
    omega
  · intro hc
    have hq : (assignStorageName t orig).data.length = 2 := by rw [hc]; rfl
    rw [hlen] at hq
    omega
  · intro hc
    exact (hnosep _ hc).1 rfl
  · intro hc
    exact (hnosep _ hc).2 rfl

/-- Witness for the amended C1 at a concrete request. -/
theorem c1_amended_no_title_validation_witness :
    (upload_video true true ⟨2024, 1, 15, 10, 30, 0⟩
        ⟨true, "a.mp4", "", "", false⟩ ⟨[], [], 1⟩).2.videos =
      [] ++ [{ id := 1, title := "", description := "",
               filename := assignStorageName ⟨2024, 1, 15, 10, 30, 0⟩ "a.mp4",
               upload_date := timeCode ⟨2024, 1, 15, 10, 30, 0⟩, featured := false }] :=
  c1_amended_no_title_validation ⟨2024, 1, 15, 10, 30, 0⟩
    ⟨true, "a.mp4", "", "", false⟩ ⟨[], [], 1⟩ rfl rfl (by decide) (by decide)

end JesseX
